import Mathlib

/-!
# Verification of the ESP32 audio capture / denoise / batch-streaming pipeline

Shallow embedding of the firmware in `src/src/main.cpp`, `src/src/protocol_schema.h`
and the auxiliary headers, together with proofs of the specified properties.

Machine integers are modelled as `Nat` / `Int` with explicit range conditions.
The binary32 multiplication by `0.8f` inside `applyScale` is modelled exactly
(round to nearest, ties to even, on a 24-bit significand); `float` fields that
are only ever copied byte-for-byte (wire `vad_prob` / `rms_raw`) are modelled
as their 32-bit patterns.
-/

/- ============================================================ -/
/- Compile-time constants (protocol_schema.h, main.cpp Config)  -/
/- ============================================================ -/

def SAMPLE_RATE : Nat := 48000

def FRAME_SIZE : Nat := 480

def FRAMES_PER_BATCH : Nat := 4

def PROTOCOL_MAGIC : Nat := 0xABCD1234

def PROTOCOL_VERSION : Nat := 0x01

/-- `Config::QUEUE_DEPTH` in main.cpp. -/
def QUEUE_DEPTH : Nat := 8

/-- FreeRTOS tick rate on the Arduino ESP32 core (1000 Hz). -/
def configTICK_RATE_HZ : Nat := 1000

/-- `pdMS_TO_TICKS(ms)` — milliseconds to scheduler ticks. -/
def pdMS_TO_TICKS (ms : Nat) : Nat := ms * configTICK_RATE_HZ / 1000

/- ============================================================ -/
/- Exact model of `(float)x * 0.8f` followed by int16 cast      -/
/- ============================================================ -/

/-- The binary32 constant `CLEAN_PCM_SCALE = 0.8f` is exactly
`13421773 / 2^24`; this is its numerator. -/
def f32ScaleNum : Nat := 13421773

/-- Round `m / 2^s` to the nearest integer, ties to even —
the IEEE-754 default rounding applied to the significand. -/
def rne (m s : Nat) : Nat :=
  if 2 * (m % 2 ^ s) < 2 ^ s then m / 2 ^ s
  else if 2 ^ s < 2 * (m % 2 ^ s) then m / 2 ^ s + 1
  else if (m / 2 ^ s) % 2 = 0 then m / 2 ^ s else m / 2 ^ s + 1

/-- For `2^24 ≤ m < 2^40`: the number of low bits that do not fit in a
24-bit significand, i.e. the `s` with `2^(23+s) ≤ m < 2^(24+s)`.
Written with 0/1 indicators `min 1 (m / 2^i)` (which equal `1` exactly when
`2^i ≤ m`) so the value is `1 + #{25 ≤ i ≤ 39 | 2^i ≤ m}`. -/
def sigShift (m : Nat) : Nat :=
  1 + min 1 (m / 2 ^ 25) + min 1 (m / 2 ^ 26) + min 1 (m / 2 ^ 27) +
  min 1 (m / 2 ^ 28) + min 1 (m / 2 ^ 29) + min 1 (m / 2 ^ 30) +
  min 1 (m / 2 ^ 31) + min 1 (m / 2 ^ 32) + min 1 (m / 2 ^ 33) +
  min 1 (m / 2 ^ 34) + min 1 (m / 2 ^ 35) + min 1 (m / 2 ^ 36) +
  min 1 (m / 2 ^ 37) + min 1 (m / 2 ^ 38) + min 1 (m / 2 ^ 39)

/-- `m / 2^24` (a nonnegative real scaled by `2^24`) rounded to the nearest
binary32 value, returned scaled by `2^24` again.  Values below `2^24`
carry at most 24 significant bits and are exact. -/
def roundF32 (m : Nat) : Nat :=
  if m < 2 ^ 24 then m
  else rne m (sigShift m) * 2 ^ (sigShift m)

/-- One sample of `applyScale` (main.cpp:121-128):
`float scaled = (float)src[i] * 0.8f;` clamped via
`if (scaled > 32767.0f) ... else if (scaled < -32768.0f) ...`
and cast to `int16_t` (truncation toward zero). -/
def scaleSample (x : Int) : Int :=
  if 0 ≤ x then
    (((if 32767 * 2 ^ 24 < roundF32 (x.natAbs * f32ScaleNum) then 32767 * 2 ^ 24
       else roundF32 (x.natAbs * f32ScaleNum)) / 2 ^ 24 : Nat) : Int)
  else
    -(((if 32768 * 2 ^ 24 < roundF32 (x.natAbs * f32ScaleNum) then 32768 * 2 ^ 24
       else roundF32 (x.natAbs * f32ScaleNum)) / 2 ^ 24 : Nat) : Int)

/-- `applyScale` (main.cpp:121-128) over a whole frame, at the fixed scale
`CLEAN_PCM_SCALE = 0.8f` that every call site passes. -/
def applyScale (src : List Int) : List Int := src.map scaleSample

/-- The specification's per-sample transform:
`clamp(input[i] * 0.8, INT16_MIN, INT16_MAX)` with exact real arithmetic
(`0.8 = 4/5`), converted to int16 by truncation toward zero. -/
def clampedScale (x : Int) : Int :=
  if 0 ≤ max (min (4 * x) (32767 * 5)) (-(32768 * 5))
  then (((max (min (4 * x) (32767 * 5)) (-(32768 * 5))).natAbs / 5 : Nat) : Int)
  else -(((max (min (4 * x) (32767 * 5)) (-(32768 * 5))).natAbs / 5 : Nat) : Int)

/- ============================================================ -/
/- Rounding lemmas                                              -/
/- ============================================================ -/

theorem rne_ge_div (m s : Nat) : m / 2 ^ s ≤ rne m s := by
  unfold rne
  split
  · exact Nat.le_refl _
  · split
    · exact Nat.le_succ _
    · split
      · exact Nat.le_refl _
      · exact Nat.le_succ _

theorem rne_le_div_succ (m s : Nat) : rne m s ≤ m / 2 ^ s + 1 := by
  unfold rne
  split
  · exact Nat.le_succ _
  · split
    · exact Nat.le_refl _
    · split
      · exact Nat.le_succ _
      · exact Nat.le_refl _

theorem sigShift_le (m : Nat) : sigShift m ≤ 16 := by
  unfold sigShift
  omega

/-- The rounded value never drops below a multiple of `2^24` that the
exact value dominates, because such multiples are representable. -/
theorem roundF32_ge (m q : Nat) (hq : q * 2 ^ 24 ≤ m) :
    q * 2 ^ 24 ≤ roundF32 m := by
  unfold roundF32
  split
  · exact hq
  · have hle16 := sigShift_le m
    have hge := rne_ge_div m (sigShift m)
    have hfac : q * 2 ^ 24 = q * 2 ^ (24 - sigShift m) * 2 ^ (sigShift m) := by
      rw [Nat.mul_assoc, ← Nat.pow_add]
      congr 2
      omega
    rw [hfac]
    have hdiv : q * 2 ^ (24 - sigShift m) ≤ m / 2 ^ (sigShift m) := by
      rw [Nat.le_div_iff_mul_le (pow_pos (by norm_num) _)]
      rw [← hfac]
      exact hq
    exact Nat.mul_le_mul_right _ (le_trans hdiv hge)

/-- The rounded value exceeds the exact value by less than one ulp. -/
theorem roundF32_le (m : Nat) : roundF32 m ≤ m + 2 ^ (sigShift m) := by
  unfold roundF32
  split
  · exact Nat.le_add_right _ _
  · have hle := rne_le_div_succ m (sigShift m)
    have h3 : rne m (sigShift m) * 2 ^ (sigShift m) ≤
        (m / 2 ^ (sigShift m) + 1) * 2 ^ (sigShift m) :=
      Nat.mul_le_mul_right _ hle
    refine le_trans h3 ?_
    rw [Nat.add_mul, Nat.one_mul]
    have := Nat.div_mul_le_self m (2 ^ (sigShift m))
    omega

theorem sigShift_pow_le (m : Nat) : 2 ^ (sigShift m) ≤ 65536 := by
  have h := sigShift_le m
  calc 2 ^ (sigShift m) ≤ 2 ^ 16 := Nat.pow_le_pow_right (by norm_num) h
  _ = 65536 := by norm_num

/-- Central numeric fact: for `a ≤ 32768`, truncating the binary32 product
`a * 0.8f` recovers exactly `⌊4a/5⌋`. -/
theorem roundF32_scale_div (a : Nat) (ha : a ≤ 32768) :
    roundF32 (a * f32ScaleNum) / 2 ^ 24 = 4 * a / 5 := by
  have hge := roundF32_ge (a * f32ScaleNum) (4 * a / 5)
  have hle := roundF32_le (a * f32ScaleNum)
  have hpow := sigShift_pow_le (a * f32ScaleNum)
  unfold f32ScaleNum at hge hle hpow ⊢
  -- 5 * (a * 13421773) = 4 * a * 2^24 + a; the rounded value stays inside
  -- [q * 2^24, (q+1) * 2^24) for q = 4*a/5, so truncation yields q.
  have hlow : 4 * a / 5 * 2 ^ 24 ≤ a * 13421773 := by omega
  have hge2 := hge hlow
  generalize hr : roundF32 (a * 13421773) = r at hge2 hle ⊢
  generalize hs : 2 ^ sigShift (a * 13421773) = t at hle hpow
  omega

/-- `scaleSample` agrees with the specification's exact scale-and-clamp
transform on the whole int16 input range. -/
theorem scaleSample_eq_clampedScale (x : Int) (h1 : -32768 ≤ x) (h2 : x ≤ 32767) :
    scaleSample x = clampedScale x := by
  have ha : x.natAbs ≤ 32768 := by omega
  have hmain := roundF32_scale_div x.natAbs ha
  have hle := roundF32_le (x.natAbs * f32ScaleNum)
  have hpow := sigShift_pow_le (x.natAbs * f32ScaleNum)
  unfold scaleSample clampedScale
  unfold f32ScaleNum at hmain hle hpow ⊢
  generalize hr : roundF32 (x.natAbs * 13421773) = r at hmain hle ⊢
  generalize hs : 2 ^ sigShift (x.natAbs * 13421773) = t at hle hpow
  have hub : ¬ (32767 * 2 ^ 24 < r) := by omega
  have hub2 : ¬ (32768 * 2 ^ 24 < r) := by omega
  rw [if_neg hub, if_neg hub2]
  have hpc : max (min (4 * x) (32767 * 5)) (-(32768 * 5)) = 4 * x := by omega
  rw [hpc]
  split <;> split <;> omega

/- ============================================================ -/
/- Processing strategies (IAudioProcessor and its subclasses)   -/
/- ============================================================ -/

/-- The concrete `IAudioProcessor` implementations in main.cpp:
`ScaledPassThroughProcessor` (main.cpp:196-208) and the `AIModelProcessor`
stub (main.cpp:250-303). -/
inductive ProcKind where
  | scaledPassThrough : ProcKind
  | aiModel : ProcKind
deriving DecidableEq

/-- `init()`: the interface default returns `true`, which
`ScaledPassThroughProcessor` inherits; the `AIModelProcessor` stub
overrides it to return `false` unconditionally (main.cpp:252-260). -/
def procInit : ProcKind → Bool
  | .scaledPassThrough => true
  | .aiModel => false

/-- Exact value of the binary32 literal `0.99f` = `16609444 / 2^24`,
the VAD constant returned by `ScaledPassThroughProcessor`. -/
def VAD_SCALED_PASSTHROUGH : ℚ := 16609444 / 16777216

/-- Exact value of the binary32 literal `0.5f`, the placeholder VAD
returned by the `AIModelProcessor` stub. -/
def VAD_AI_STUB : ℚ := 1 / 2

/-- `processFrame(input, output)` of each concrete processor: both write
`applyScale(output, input, CLEAN_PCM_SCALE)` and differ only in the
returned VAD probability (0.99f vs the stub placeholder 0.5f). -/
def procProcessFrame : ProcKind → List Int → List Int × ℚ
  | .scaledPassThrough, input => (applyScale input, VAD_SCALED_PASSTHROUGH)
  | .aiModel, input => (applyScale input, VAD_AI_STUB)

/-- Modelled from the spec: the PassThrough strategy variant (§4.3) is not
implemented in src/ (main.cpp only contains ScaledPassThrough and the AI
stub); per the spec it copies input to output unchanged with a fixed
VAD ≈ 1.0. -/
def passThroughProcessFrame (input : List Int) : List Int × ℚ := (input, 1)

/- ============================================================ -/
/- Wire protocol (protocol_schema.h)                            -/
/- ============================================================ -/

/-- Wire-format `AudioFrame` (protocol_schema.h:10-16).  The two `float`
fields are only ever copied byte-for-byte on the wire, so they are carried
as their 32-bit patterns. -/
structure AudioFrame where
  frame_seq : Nat
  vad_prob : Nat
  rms_raw : Nat
  raw_pcm : List Int
  clean_pcm : List Int
deriving DecidableEq

/-- Wire-format `BatchHeader` (protocol_schema.h:18-24). -/
structure BatchHeader where
  magic : Nat
  version : Nat
  reserved0 : Nat
  reserved1 : Nat
  reserved2 : Nat
  batch_seq : Nat
  timestamp_ms : Nat
deriving DecidableEq

/-- Wire-format `BatchPacket` (protocol_schema.h:26-29). -/
structure BatchPacket where
  header : BatchHeader
  frames : List AudioFrame
deriving DecidableEq

/-- A value fits in a signed 16-bit sample. -/
def isI16 (x : Int) : Prop := -32768 ≤ x ∧ x ≤ 32767

instance (x : Int) : Decidable (isI16 x) := by
  unfold isI16
  infer_instance

/-- Field ranges implied by the packed C struct types. -/
def AudioFrame.wf (f : AudioFrame) : Prop :=
  f.frame_seq < 2 ^ 32 ∧ f.vad_prob < 2 ^ 32 ∧ f.rms_raw < 2 ^ 32 ∧
  f.raw_pcm.length = FRAME_SIZE ∧ f.clean_pcm.length = FRAME_SIZE ∧
  (∀ x ∈ f.raw_pcm, isI16 x) ∧ (∀ x ∈ f.clean_pcm, isI16 x)

instance (f : AudioFrame) : Decidable f.wf := by
  unfold AudioFrame.wf
  infer_instance

def BatchHeader.wf (h : BatchHeader) : Prop :=
  h.magic < 2 ^ 32 ∧ h.version < 2 ^ 8 ∧
  h.reserved0 < 2 ^ 8 ∧ h.reserved1 < 2 ^ 8 ∧ h.reserved2 < 2 ^ 8 ∧
  h.batch_seq < 2 ^ 32 ∧ h.timestamp_ms < 2 ^ 32

instance (h : BatchHeader) : Decidable h.wf := by
  unfold BatchHeader.wf
  infer_instance

def BatchPacket.wf (p : BatchPacket) : Prop :=
  p.header.wf ∧ p.frames.length = FRAMES_PER_BATCH ∧ ∀ f ∈ p.frames, f.wf

instance (p : BatchPacket) : Decidable p.wf := by
  unfold BatchPacket.wf
  infer_instance

/-- Little-endian bytes of a 32-bit unsigned value. -/
def u32le (n : Nat) : List Nat :=
  [n % 256, n / 256 % 256, n / 65536 % 256, n / 16777216 % 256]

/-- Little-endian bytes of a signed 16-bit sample (two's complement). -/
def i16le (x : Int) : List Nat :=
  [(x + 65536).toNat % 256, (x + 65536).toNat / 256 % 256]

/-- Serialize a PCM buffer, two bytes per sample. -/
def encPcm : List Int → List Nat
  | [] => []
  | x :: xs => i16le x ++ encPcm xs

/-- Serialize one wire `AudioFrame` in declaration order
(frame_seq, vad_prob, rms_raw, raw_pcm, clean_pcm) — the packed layout. -/
def encFrame (f : AudioFrame) : List Nat :=
  u32le f.frame_seq ++ u32le f.vad_prob ++ u32le f.rms_raw ++
  encPcm f.raw_pcm ++ encPcm f.clean_pcm

/-- Serialize the `BatchHeader` in declaration order
(magic, version, reserved[3], batch_seq, timestamp_ms). -/
def encHeader (h : BatchHeader) : List Nat :=
  u32le h.magic ++ [h.version, h.reserved0, h.reserved1, h.reserved2] ++
  u32le h.batch_seq ++ u32le h.timestamp_ms

def encFrames : List AudioFrame → List Nat
  | [] => []
  | f :: fs => encFrame f ++ encFrames fs

/-- Serialize a whole `BatchPacket`: header then the frame array. -/
def encPacket (p : BatchPacket) : List Nat :=
  encHeader p.header ++ encFrames p.frames

/- Structural decoders. -/

def dec32 : List Nat → Option (Nat × List Nat)
  | b0 :: b1 :: b2 :: b3 :: rest =>
      some (b0 + 256 * b1 + 65536 * b2 + 16777216 * b3, rest)
  | _ => none

def dec8 : List Nat → Option (Nat × List Nat)
  | b :: rest => some (b, rest)
  | _ => none

def decI16 : List Nat → Option (Int × List Nat)
  | b0 :: b1 :: rest =>
      some (if b0 + 256 * b1 < 32768 then ((b0 + 256 * b1 : Nat) : Int)
            else ((b0 + 256 * b1 : Nat) : Int) - 65536, rest)
  | _ => none

def decPcm : Nat → List Nat → Option (List Int × List Nat)
  | 0, bs => some ([], bs)
  | n + 1, bs =>
    match decI16 bs with
    | some (x, rest) =>
      match decPcm n rest with
      | some (xs, rest2) => some (x :: xs, rest2)
      | none => none
    | none => none

def decFrame (bs : List Nat) : Option (AudioFrame × List Nat) :=
  match dec32 bs with
  | none => none
  | some (seq, bs1) =>
    match dec32 bs1 with
    | none => none
    | some (vad, bs2) =>
      match dec32 bs2 with
      | none => none
      | some (rms, bs3) =>
        match decPcm FRAME_SIZE bs3 with
        | none => none
        | some (raw, bs4) =>
          match decPcm FRAME_SIZE bs4 with
          | none => none
          | some (clean, bs5) =>
            some ({ frame_seq := seq, vad_prob := vad, rms_raw := rms,
                    raw_pcm := raw, clean_pcm := clean }, bs5)

def decHeader (bs : List Nat) : Option (BatchHeader × List Nat) :=
  match dec32 bs with
  | none => none
  | some (magic, bs1) =>
    match bs1 with
    | v :: r0 :: r1 :: r2 :: bs2 =>
      match dec32 bs2 with
      | none => none
      | some (seq, bs3) =>
        match dec32 bs3 with
        | none => none
        | some (ts, bs4) =>
          some ({ magic := magic, version := v, reserved0 := r0,
                  reserved1 := r1, reserved2 := r2, batch_seq := seq,
                  timestamp_ms := ts }, bs4)
    | _ => none

def decFrames : Nat → List Nat → Option (List AudioFrame × List Nat)
  | 0, bs => some ([], bs)
  | n + 1, bs =>
    match decFrame bs with
    | some (f, rest) =>
      match decFrames n rest with
      | some (fs, rest2) => some (f :: fs, rest2)
      | none => none
    | none => none

/-- Decode a whole batch: header, then exactly `FRAMES_PER_BATCH` frames,
then end of input. -/
def decPacket (bs : List Nat) : Option BatchPacket :=
  match decHeader bs with
  | none => none
  | some (h, bs1) =>
    match decFrames FRAMES_PER_BATCH bs1 with
    | some (fs, []) => some { header := h, frames := fs }
    | _ => none

/- ============================================================ -/
/- Wire-format lemmas                                           -/
/- ============================================================ -/

theorem u32le_length (n : Nat) : (u32le n).length = 4 := rfl

theorem i16le_length (x : Int) : (i16le x).length = 2 := rfl

theorem dec32_u32le (n : Nat) (h : n < 2 ^ 32) (rest : List Nat) :
    dec32 (u32le n ++ rest) = some (n, rest) := by
  unfold u32le dec32
  simp only [List.cons_append, List.nil_append]
  congr 2
  omega

theorem decI16_i16le (x : Int) (h : isI16 x) (rest : List Nat) :
    decI16 (i16le x ++ rest) = some (x, rest) := by
  unfold isI16 at h
  unfold i16le decI16
  simp only [List.cons_append, List.nil_append]
  congr 1
  congr 1
  split
  · omega
  · omega

theorem encPcm_length (xs : List Int) : (encPcm xs).length = 2 * xs.length := by
  induction xs with
  | nil => rfl
  | cons x xs ih =>
    unfold encPcm
    simp only [List.length_append, List.length_cons, i16le_length, ih]
    omega

theorem decPcm_encPcm (xs : List Int) (h : ∀ x ∈ xs, isI16 x) (rest : List Nat) :
    decPcm xs.length (encPcm xs ++ rest) = some (xs, rest) := by
  induction xs with
  | nil => rfl
  | cons x xs ih =>
    have hx : isI16 x := h x (List.mem_cons_self x xs)
    have hxs : ∀ y ∈ xs, isI16 y := fun y hy => h y (List.mem_cons_of_mem x hy)
    unfold encPcm
    rw [List.length_cons, List.append_assoc]
    unfold decPcm
    rw [decI16_i16le x hx]
    dsimp only
    rw [ih hxs]

theorem encFrame_length (f : AudioFrame) (h : f.wf) : (encFrame f).length = 1932 := by
  obtain ⟨_, _, _, hr, hc, _, _⟩ := h
  unfold encFrame
  simp only [List.length_append, u32le_length, encPcm_length, hr, hc]
  unfold FRAME_SIZE at *
  omega

theorem encHeader_length (h : BatchHeader) : (encHeader h).length = 16 := rfl

theorem encFrames_length (fs : List AudioFrame) (h : ∀ f ∈ fs, f.wf) :
    (encFrames fs).length = 1932 * fs.length := by
  induction fs with
  | nil => rfl
  | cons f fs ih =>
    have hf : f.wf := h f (List.mem_cons_self f fs)
    have hfs : ∀ g ∈ fs, g.wf := fun g hg => h g (List.mem_cons_of_mem f hg)
    unfold encFrames
    simp only [List.length_append, encFrame_length f hf, ih hfs, List.length_cons]
    omega

/-- The serialized batch is exactly `16 + 4 × 1932 = 7744` bytes. -/
theorem encPacket_length (p : BatchPacket) (h : p.wf) :
    (encPacket p).length = 7744 := by
  obtain ⟨_, hlen, hfs⟩ := h
  unfold encPacket
  simp only [List.length_append, encHeader_length, encFrames_length p.frames hfs, hlen]
  unfold FRAMES_PER_BATCH
  omega

theorem decFrame_encFrame (f : AudioFrame) (h : f.wf) (rest : List Nat) :
    decFrame (encFrame f ++ rest) = some (f, rest) := by
  obtain ⟨h1, h2, h3, hr, hc, hri, hci⟩ := h
  unfold encFrame decFrame
  simp only [List.append_assoc]
  rw [dec32_u32le _ h1]
  dsimp only
  rw [dec32_u32le _ h2]
  dsimp only
  rw [dec32_u32le _ h3]
  dsimp only
  rw [← hr, decPcm_encPcm _ hri]
  dsimp only
  rw [hr, ← hc, decPcm_encPcm _ hci]

theorem decHeader_encHeader (h : BatchHeader) (hw : h.wf) (rest : List Nat) :
    decHeader (encHeader h ++ rest) = some (h, rest) := by
  obtain ⟨h1, _, _, _, _, h6, h7⟩ := hw
  unfold encHeader decHeader
  simp only [List.append_assoc, List.cons_append, List.nil_append]
  rw [dec32_u32le _ h1]
  dsimp only
  rw [dec32_u32le _ h6]
  dsimp only
  rw [dec32_u32le _ h7]

theorem decFrames_encFrames (fs : List AudioFrame) (h : ∀ f ∈ fs, f.wf)
    (rest : List Nat) :
    decFrames fs.length (encFrames fs ++ rest) = some (fs, rest) := by
  induction fs with
  | nil => rfl
  | cons f fs ih =>
    have hf : f.wf := h f (List.mem_cons_self f fs)
    have hfs : ∀ g ∈ fs, g.wf := fun g hg => h g (List.mem_cons_of_mem f hg)
    unfold encFrames
    rw [List.length_cons, List.append_assoc]
    unfold decFrames
    rw [decFrame_encFrame f hf]
    dsimp only
    rw [ih hfs]

/-- Round-trip: decoding a serialized well-formed batch recovers every
field value exactly. -/
theorem decPacket_encPacket (p : BatchPacket) (h : p.wf) :
    decPacket (encPacket p) = some p := by
  obtain ⟨hh, hlen, hfs⟩ := h
  unfold encPacket decPacket
  rw [decHeader_encHeader _ hh]
  dsimp only
  have h2 : encFrames p.frames ++ [] = encFrames p.frames := List.append_nil _
  rw [← h2, ← hlen, decFrames_encFrames _ hfs]

/- ============================================================ -/
/- Byte-offset lemmas for the wire layout                       -/
/- ============================================================ -/

/-- The `len` bytes of `l` starting at byte offset `off`. -/
def seg (l : List Nat) (off len : Nat) : List Nat := (l.drop off).take len

theorem drop_len_append (a b : List Nat) (n : Nat) (h : a.length = n) :
    (a ++ b).drop n = b := by
  subst h
  exact List.drop_left a b

theorem take_len_append (a b : List Nat) (n : Nat) (h : a.length = n) :
    (a ++ b).take n = a := by
  subst h
  exact List.take_left a b

theorem seg_shift (l : List Nat) (o1 o2 len : Nat) :
    seg l (o1 + o2) len = seg (l.drop o1) o2 len := by
  unfold seg
  rw [List.drop_drop, Nat.add_comm]

theorem seg_append_skip (a b : List Nat) (n len : Nat) (h : a.length = n) :
    seg (a ++ b) n len = seg b 0 len := by
  unfold seg
  rw [drop_len_append a b n h, List.drop_zero]

theorem seg_zero_len (a b : List Nat) (n : Nat) (h : a.length = n) :
    seg (a ++ b) 0 n = a := by
  unfold seg
  rw [List.drop_zero]
  exact take_len_append a b n h

theorem list_len4 {α : Type} (l : List α) (h : l.length = 4) :
    ∃ a b c d, l = [a, b, c, d] := by
  rcases l with _ | ⟨a, _ | ⟨b, _ | ⟨c, _ | ⟨d, _ | ⟨e, t⟩⟩⟩⟩⟩ <;> simp_all

/- ============================================================ -/
/- Pipeline data structures (main.cpp:315-451)                  -/
/- ============================================================ -/

/-- Internal inter-task queue element `AudioBuffer` (main.cpp:315-319). -/
structure AudioBuffer where
  pcm : List Int
  sequence : Nat
  timestampUs : Nat
deriving DecidableEq

/-- In-memory frame as assembled by the pipeline.  Unlike the wire model,
`vad_prob` and `rms_raw` are carried as rational values here: the pipeline
claims never constrain their bit patterns, only which function produced
them. -/
structure PFrame where
  frame_seq : Nat
  vad_prob : ℚ
  rms_raw : ℚ
  raw_pcm : List Int
  clean_pcm : List Int
deriving DecidableEq

/-- The in-memory `BatchPacket` being assembled (header shares the wire
`BatchHeader` shape). -/
structure PBatchPacket where
  header : BatchHeader
  frames : List PFrame
deriving DecidableEq

/-- `BatchAssembler` (main.cpp:325-335). -/
structure BatchAssembler where
  packet : PBatchPacket
  frameCount : Nat
  batchSequence : Nat
deriving DecidableEq

/-- `BatchAssembler::reset` (main.cpp:331-334): zero the frame count and
`memset` the header; `batchSequence` and the frame storage are untouched. -/
def BatchAssembler.reset (a : BatchAssembler) : BatchAssembler :=
  { a with frameCount := 0,
           packet := { a.packet with
             header := { magic := 0, version := 0, reserved0 := 0,
                         reserved1 := 0, reserved2 := 0, batch_seq := 0,
                         timestamp_ms := 0 } } }

def zeroPFrame : PFrame :=
  { frame_seq := 0, vad_prob := 0, rms_raw := 0,
    raw_pcm := List.replicate FRAME_SIZE 0,
    clean_pcm := List.replicate FRAME_SIZE 0 }

/-- Assembler state at construction: `frameCount = 0`, `batchSequence = 0`
(C++ member initializers); the packet storage starts zeroed (static global,
zero-initialized). -/
def initAssembler : BatchAssembler :=
  { packet := { header := { magic := 0, version := 0, reserved0 := 0,
                            reserved1 := 0, reserved2 := 0, batch_seq := 0,
                            timestamp_ms := 0 },
                frames := List.replicate FRAMES_PER_BATCH zeroPFrame },
    frameCount := 0, batchSequence := 0 }

/-- `AudioPipeline` (main.cpp:348-451).  The C++ constructor leaves the
processor pointer null; `begin()` always assigns it before use, so the
initial value of `processor` is irrelevant. -/
structure AudioPipeline where
  processor : ProcKind
  assembler : BatchAssembler
deriving DecidableEq

def initPipeline : AudioPipeline :=
  { processor := ProcKind.scaledPassThrough, assembler := initAssembler }

/-- `AudioPipeline::begin` (main.cpp:362-377): attach the processor; if its
`init()` returns false, substitute a `ScaledPassThroughProcessor` (whose own
`init()` is the interface default returning true and is called and ignored);
reset the assembler; always return `true`. -/
def AudioPipeline.begin (p : AudioPipeline) (proc : ProcKind) :
    AudioPipeline × Bool :=
  ({ processor := if procInit proc then proc else ProcKind.scaledPassThrough,
     assembler := p.assembler.reset }, true)

/-- `AudioPipeline::finalizeBatch` (main.cpp:422-432): seal the header with
magic/version/reserved, `batch_seq = batchSequence++`, and the current
monotonic time in ms (`esp_timer_get_time() / 1000`, passed in as `now`). -/
def finalizeBatch (now : Nat) (a : BatchAssembler) : BatchAssembler :=
  { a with
    packet := { a.packet with
      header := { magic := PROTOCOL_MAGIC, version := PROTOCOL_VERSION,
                  reserved0 := 0, reserved1 := 0, reserved2 := 0,
                  batch_seq := a.batchSequence, timestamp_ms := now } },
    batchSequence := a.batchSequence + 1 }

/-- `AudioPipeline::processFrame` (main.cpp:389-410): write the next frame
slot at index `frameCount` (raw index of the C array write
`assembler_.packet.frames[assembler_.frameCount]`), run the processor, and
seal when `frameCount` reaches `FRAMES_PER_BATCH`.  `rmsF` abstracts
`calculateRMS` (main.cpp:439-446), whose binary32 sqrt is not otherwise
modelled — no claim constrains its value; `now` abstracts the clock read. -/
def AudioPipeline.processFrame (p : AudioPipeline) (rmsF : List Int → ℚ)
    (now : Nat) (buffer : AudioBuffer) : AudioPipeline × Bool :=
  let pr := procProcessFrame p.processor buffer.pcm
  let frame : PFrame :=
    { frame_seq := buffer.sequence, vad_prob := pr.2, rms_raw := rmsF buffer.pcm,
      raw_pcm := buffer.pcm, clean_pcm := pr.1 }
  let a1 : BatchAssembler :=
    { p.assembler with
      packet := { p.assembler.packet with
        frames := p.assembler.packet.frames.set p.assembler.frameCount frame },
      frameCount := p.assembler.frameCount + 1 }
  if FRAMES_PER_BATCH ≤ a1.frameCount then
    ({ p with assembler := finalizeBatch now a1 }, true)
  else
    ({ p with assembler := a1 }, false)

/-- `AudioPipeline::getBatch` (main.cpp:413). -/
def AudioPipeline.getBatch (p : AudioPipeline) : PBatchPacket :=
  p.assembler.packet

/-- `AudioPipeline::markTransmitted` (main.cpp:416). -/
def AudioPipeline.markTransmitted (p : AudioPipeline) : AudioPipeline :=
  { p with assembler := p.assembler.reset }

/- ============================================================ -/
/- Processing task (taskAudioProcessing, main.cpp:630-650)      -/
/- ============================================================ -/

/-- One loop iteration of `taskAudioProcessing` after `xQueueReceive`
yields `buffer`: call `processFrame`; when it reports a ready batch, send
`getBatch()` downstream and call `markTransmitted()`.  Returns the new
pipeline and the batch made visible downstream (if any). -/
def taskAudioProcessingStep (p : AudioPipeline) (rmsF : List Int → ℚ)
    (now : Nat) (buffer : AudioBuffer) : AudioPipeline × Option PBatchPacket :=
  let r := p.processFrame rmsF now buffer
  if r.2 then (r.1.markTransmitted, some r.1.getBatch) else (r.1, none)

/-- The processing task over a whole run: a list of received buffers with
their clock readings.  Returns the final pipeline and the list of batches
made visible downstream, in order. -/
def taskAudioProcessingRun (p : AudioPipeline) (rmsF : List Int → ℚ) :
    List (AudioBuffer × Nat) → AudioPipeline × List PBatchPacket
  | [] => (p, [])
  | (buffer, now) :: rest =>
    let st := taskAudioProcessingStep p rmsF now buffer
    let r := taskAudioProcessingRun st.1 rmsF rest
    (r.1, (match st.2 with | some b => [b] | none => []) ++ r.2)

/-- The pipeline states at entry to each `processFrame` call of a run. -/
def taskAudioProcessingStates (p : AudioPipeline) (rmsF : List Int → ℚ) :
    List (AudioBuffer × Nat) → List AudioPipeline
  | [] => []
  | (buffer, now) :: rest =>
    p :: taskAudioProcessingStates (taskAudioProcessingStep p rmsF now buffer).1 rmsF rest

/- ============================================================ -/
/- Capture task (taskAudioCapture, main.cpp:595-616)            -/
/- ============================================================ -/

/-- Environment events interleaved with the capture loop: either one capture
iteration (`i2s.read` returned `bytesRead` bytes of `pcm`, clock at `nowUs`),
or one dequeue by the processing task (`xQueueReceive`).  A send that
succeeds only because the consumer freed space during the 10 ms wait window
is represented by ordering the `consume` event before the `read` event. -/
inductive CapEvent where
  | read (bytesRead : Nat) (pcm : List Int) (nowUs : Nat)
  | consume
deriving DecidableEq

/-- Capture-side state: the local `sequence` counter, the telemetry counters
(`g_telemetry.framesCaptured` / `queueOverruns`), the frame queue contents,
and ghost histories: frames received by the consumer in order, and the
sequence numbers successfully enqueued / dropped, in order. -/
structure CaptureState where
  sequence : Nat
  framesCaptured : Nat
  queueOverruns : Nat
  queue : List AudioBuffer
  received : List AudioBuffer
  sentSeqs : List Nat
  droppedSeqs : List Nat
deriving DecidableEq

def initCapture : CaptureState :=
  { sequence := 0, framesCaptured := 0, queueOverruns := 0, queue := [],
    received := [], sentSeqs := [], droppedSeqs := [] }

/-- One step of the capture-loop / consumer interleaving (main.cpp:601-614):
on a successful read (`bytesRead > 0`) the frame gets `sequence++` stamped
before the send attempt, then `xQueueSend` either appends to the queue
(success: `framesCaptured++`) or drops the frame (`queueOverruns++`). -/
def captureStep (st : CaptureState) : CapEvent → CaptureState
  | .read bytesRead pcm nowUs =>
    if 0 < bytesRead then
      if st.queue.length < QUEUE_DEPTH then
        { st with sequence := st.sequence + 1,
                  framesCaptured := st.framesCaptured + 1,
                  queue := st.queue ++ [{ pcm := pcm, sequence := st.sequence,
                                          timestampUs := nowUs }],
                  sentSeqs := st.sentSeqs ++ [st.sequence] }
      else
        { st with sequence := st.sequence + 1,
                  queueOverruns := st.queueOverruns + 1,
                  droppedSeqs := st.droppedSeqs ++ [st.sequence] }
    else st
  | .consume =>
    match st.queue with
    | [] => st
    | b :: rest => { st with queue := rest, received := st.received ++ [b] }

def captureRun (st : CaptureState) : List CapEvent → CaptureState
  | [] => st
  | ev :: evs => captureRun (captureStep st ev) evs

/- ============================================================ -/
/- Timed send semantics for C1 (xQueueSend with a tick budget)  -/
/- ============================================================ -/

/-- `xQueueSend(queue, item, ticksToWait)` timing model: `avail t` says
whether queue space is available after the caller has been blocked for `t`
ticks.  The call returns at the first tick with space (success), or after
the full budget with `errQUEUE_FULL`.  Result: (succeeded, ticks waited). -/
def xQueueSendTimed (avail : Nat → Bool) (budget : Nat) : Bool × Nat :=
  match (List.range budget).find? avail with
  | some t => (true, t)
  | none => (false, budget)

/-- The tick budget the capture task passes to `xQueueSend`
(main.cpp:608: `pdMS_TO_TICKS(10)`). -/
def captureSendTicks : Nat := pdMS_TO_TICKS 10

/-- One send attempt of `taskAudioCapture` under the timed model, applied
to the telemetry/ghost state.  Returns the new state and the number of
ticks the capture task was blocked inside `xQueueSend`. -/
def captureIterTimed (avail : Nat → Bool) (st : CaptureState) (pcm : List Int)
    (nowUs : Nat) : CaptureState × Nat :=
  let r := xQueueSendTimed avail captureSendTicks
  if r.1 then
    ({ st with sequence := st.sequence + 1,
               framesCaptured := st.framesCaptured + 1,
               queue := st.queue ++ [{ pcm := pcm, sequence := st.sequence,
                                       timestampUs := nowUs }],
               sentSeqs := st.sentSeqs ++ [st.sequence] }, r.2)
  else
    ({ st with sequence := st.sequence + 1,
               queueOverruns := st.queueOverruns + 1,
               droppedSeqs := st.droppedSeqs ++ [st.sequence] }, r.2)

/- ============================================================ -/
/- Output queue with eviction (C4)                              -/
/- ============================================================ -/

/-- An output-queue entry: a completed batch plus the per-entry
"data discontinuity" flag (`FLAG_QUEUE_OVERFLOW` in
include/audio_config.h). -/
structure OutEntry where
  payload : PBatchPacket
  discontinuity : Bool
deriving DecidableEq

/-- Modelled from the spec (§4.5 "Output Queue + Eviction Policy"): src/
contains only the declarations of this machinery (`WS_QUEUE_DEPTH`,
`ws_payload_t` and `FLAG_QUEUE_OVERFLOW` in include/audio_config.h); the
send/eviction implementation lives in repository prototype variants not
included under src/.  Bounded FIFO, non-blocking send: on a full queue,
evict the oldest entry (pop-and-discard from the front), set the new
entry's discontinuity flag, insert the new entry, and count the overflow. -/
def outputQueueSend (c : Nat) (q : List OutEntry) (e : OutEntry)
    (overflow : Nat) : List OutEntry × Nat :=
  if q.length < c then (q ++ [e], overflow)
  else (q.drop 1 ++ [{ e with discontinuity := true }], overflow + 1)

/- ============================================================ -/
/- Transmit sender (WebSocketManager, main.cpp:536-567)         -/
/- ============================================================ -/

/-- Modelled from the spec (§6 "Handshake message"): the textual handshake
describes the stream parameters.  The concrete serialization is excluded
by the spec (§1); the fields are what it must describe. -/
structure HandshakeMsg where
  sampleRate : Nat
  frameSize : Nat
  encoding : Nat
deriving DecidableEq

/-- The stream parameters of this firmware: 48 kHz, 480-sample frames,
encoding identifier 1 (16-bit PCM batches). -/
def handshakeMsg : HandshakeMsg :=
  { sampleRate := SAMPLE_RATE, frameSize := FRAME_SIZE, encoding := 1 }

/-- Network calls the Transmit Sender can make on the transport. -/
inductive SendCall where
  | sendText (m : HandshakeMsg)
  | sendBinary (b : List Nat)
deriving DecidableEq

/-- Events driving the Transmit Sender: transport connect / disconnect
notifications and completed batches arriving from Processing. -/
inductive WsEvent where
  | connected
  | disconnected
  | batchReady (b : BatchPacket)
deriving DecidableEq

/-- `WebSocketManager` connection state (`isConnected()`). -/
structure WebSocketManager where
  connected : Bool
deriving DecidableEq

/-- `WebSocketManager::sendBatch` (main.cpp:554-561): bail out when not
connected (`if (!isConnected()) return;`), else a single `sendBIN` of the
serialized 7744-byte batch. -/
def sendBatch (ws : WebSocketManager) (b : BatchPacket) : List SendCall :=
  if ws.connected then [SendCall.sendBinary (encPacket b)] else []

/-- One step of the Transmit Sender.  The `connected` case is modelled from
the spec (§4.6): on entering Connected, exactly one textual handshake is
sent before any binary payload; main.cpp's `WebSocketManager` carries only
connection management and `sendBatch`, the handshake emission lives in
repository variants not included under src/. -/
def wsStep (ws : WebSocketManager) : WsEvent → WebSocketManager × List SendCall
  | .connected => ({ connected := true }, [SendCall.sendText handshakeMsg])
  | .disconnected => ({ connected := false }, [])
  | .batchReady b => (ws, sendBatch ws b)

/-- All network calls emitted over a run of the Transmit Sender. -/
def wsRun (ws : WebSocketManager) : List WsEvent → List SendCall
  | [] => []
  | ev :: evs => (wsStep ws ev).2 ++ wsRun (wsStep ws ev).1 evs

/- ============================================================ -/
/- Processing-run lemmas (towards C2 and C9)                    -/
/- ============================================================ -/

def dfltPBatch : PBatchPacket :=
  { header := { magic := 0, version := 0, reserved0 := 0, reserved1 := 0,
                reserved2 := 0, batch_seq := 0, timestamp_ms := 0 },
    frames := [] }

/-- Step shape when the batch does not fill up. -/
theorem procStep_no_seal (p : AudioPipeline) (rmsF : List Int → ℚ) (now : Nat)
    (buffer : AudioBuffer) (h : p.assembler.frameCount + 1 < FRAMES_PER_BATCH) :
    (taskAudioProcessingStep p rmsF now buffer).2 = none ∧
    (taskAudioProcessingStep p rmsF now buffer).1.assembler.frameCount
      = p.assembler.frameCount + 1 ∧
    (taskAudioProcessingStep p rmsF now buffer).1.assembler.batchSequence
      = p.assembler.batchSequence ∧
    (taskAudioProcessingStep p rmsF now buffer).1.assembler.packet.frames.length
      = p.assembler.packet.frames.length := by
  unfold taskAudioProcessingStep AudioPipeline.processFrame
  simp only
  have hcond : ¬ FRAMES_PER_BATCH ≤ p.assembler.frameCount + 1 := by omega
  rw [if_neg hcond]
  simp [List.length_set]

/-- Step shape when the batch seals: the visible batch carries
`batch_seq = batchSequence`, the counter advances, the count resets. -/
theorem procStep_seal (p : AudioPipeline) (rmsF : List Int → ℚ) (now : Nat)
    (buffer : AudioBuffer) (h : FRAMES_PER_BATCH ≤ p.assembler.frameCount + 1) :
    ∃ b : PBatchPacket,
    (taskAudioProcessingStep p rmsF now buffer).2 = some b ∧
    b.header.batch_seq = p.assembler.batchSequence ∧
    b.frames.length = p.assembler.packet.frames.length ∧
    (taskAudioProcessingStep p rmsF now buffer).1.assembler.frameCount = 0 ∧
    (taskAudioProcessingStep p rmsF now buffer).1.assembler.batchSequence
      = p.assembler.batchSequence + 1 ∧
    (taskAudioProcessingStep p rmsF now buffer).1.assembler.packet.frames.length
      = p.assembler.packet.frames.length := by
  unfold taskAudioProcessingStep AudioPipeline.processFrame
  simp only
  rw [if_pos h]
  simp [AudioPipeline.markTransmitted, AudioPipeline.getBatch,
        BatchAssembler.reset, finalizeBatch, List.length_set]

/-- Over any disciplined run (`markTransmitted` after every ready batch, as
`taskAudioProcessing` does): the number of visible batches and their
sequence numbers, counted from the starting assembler state. -/
theorem taskRun_spec (rmsF : List Int → ℚ) (inputs : List (AudioBuffer × Nat)) :
    ∀ p : AudioPipeline, p.assembler.frameCount < FRAMES_PER_BATCH →
      p.assembler.packet.frames.length = FRAMES_PER_BATCH →
      (taskAudioProcessingRun p rmsF inputs).2.length
          = (p.assembler.frameCount + inputs.length) / FRAMES_PER_BATCH ∧
      (∀ k, k < (taskAudioProcessingRun p rmsF inputs).2.length →
        ((taskAudioProcessingRun p rmsF inputs).2.getD k dfltPBatch).header.batch_seq
            = p.assembler.batchSequence + k ∧
        ((taskAudioProcessingRun p rmsF inputs).2.getD k dfltPBatch).frames.length
            = FRAMES_PER_BATCH) := by
  have hF : FRAMES_PER_BATCH = 4 := rfl
  induction inputs with
  | nil =>
    intro p hc hl
    rw [hF] at hc
    constructor
    · simp only [taskAudioProcessingRun, List.length_nil, hF]
      omega
    · intro k hk
      simp [taskAudioProcessingRun] at hk
  | cons head tail ih =>
    intro p hc hl
    obtain ⟨buffer, now⟩ := head
    by_cases hs : FRAMES_PER_BATCH ≤ p.assembler.frameCount + 1
    · obtain ⟨b, hb1, hb2, hb3, hb4, hb5, hb6⟩ := procStep_seal p rmsF now buffer hs
      have ih2 := ih (taskAudioProcessingStep p rmsF now buffer).1 (by omega)
        (by omega)
      obtain ⟨ihlen, ihseq⟩ := ih2
      constructor
      · show (taskAudioProcessingRun p rmsF ((buffer, now) :: tail)).2.length = _
        unfold taskAudioProcessingRun
        simp only [hb1, List.cons_append, List.nil_append, List.length_cons]
        rw [ihlen, hb4, hF]
        rw [hF] at hc hs
        omega
      · intro k hk
        show ((taskAudioProcessingRun p rmsF ((buffer, now) :: tail)).2.getD k dfltPBatch).header.batch_seq = _ ∧ _
        unfold taskAudioProcessingRun
        simp only [hb1]
        match k with
        | 0 =>
          simp only [List.cons_append, List.nil_append, List.getD_cons_zero]
          constructor
          · omega
          · omega
        | k + 1 =>
          simp only [List.cons_append, List.nil_append, List.getD_cons_succ]
          unfold taskAudioProcessingRun at hk
          simp only [hb1, List.cons_append, List.nil_append, List.length_cons] at hk
          have := ihseq k (by omega)
          constructor
          · omega
          · omega
    · obtain ⟨hb1, hb2, hb3, hb4⟩ := procStep_no_seal p rmsF now buffer (by omega)
      have ih2 := ih (taskAudioProcessingStep p rmsF now buffer).1 (by omega)
        (by omega)
      obtain ⟨ihlen, ihseq⟩ := ih2
      constructor
      · show (taskAudioProcessingRun p rmsF ((buffer, now) :: tail)).2.length = _
        unfold taskAudioProcessingRun
        simp only [hb1, List.nil_append, List.length_cons]
        rw [ihlen, hb2, hF]
        rw [hF] at hc hs
        omega
      · intro k hk
        show ((taskAudioProcessingRun p rmsF ((buffer, now) :: tail)).2.getD k dfltPBatch).header.batch_seq = _ ∧ _
        unfold taskAudioProcessingRun
        simp only [hb1, List.nil_append]
        unfold taskAudioProcessingRun at hk
        simp only [hb1, List.nil_append] at hk
        have := ihseq k (by omega)
        constructor
        · omega
        · omega

/-- Pipeline states at entry of every `processFrame` call keep
`frameCount < FRAMES_PER_BATCH` and a 4-slot frame array, so the C array
write `frames[frameCount]` is in bounds (towards C9). -/
theorem procStates_inv (rmsF : List Int → ℚ) (inputs : List (AudioBuffer × Nat)) :
    ∀ p : AudioPipeline, p.assembler.frameCount < FRAMES_PER_BATCH →
      p.assembler.packet.frames.length = FRAMES_PER_BATCH →
      ∀ q ∈ taskAudioProcessingStates p rmsF inputs,
        q.assembler.frameCount < FRAMES_PER_BATCH ∧
        q.assembler.packet.frames.length = FRAMES_PER_BATCH := by
  induction inputs with
  | nil =>
    intro p hc hl q hq
    simp [taskAudioProcessingStates] at hq
  | cons head tail ih =>
    intro p hc hl q hq
    obtain ⟨buffer, now⟩ := head
    simp only [taskAudioProcessingStates, List.mem_cons] at hq
    rcases hq with rfl | hq
    · exact ⟨hc, hl⟩
    · by_cases hs : FRAMES_PER_BATCH ≤ p.assembler.frameCount + 1
      · obtain ⟨b, _, _, _, hb4, _, hb6⟩ := procStep_seal p rmsF now buffer hs
        exact ih _ (by omega) (by omega) q hq
      · obtain ⟨_, hb2, _, hb4⟩ := procStep_no_seal p rmsF now buffer (by omega)
        exact ih _ (by omega) (by omega) q hq

/-- `processFrame` alone never resets the count: it always leaves
`frameCount = frameCount + 1`, even when it just sealed a batch. -/
theorem processFrame_count (p : AudioPipeline) (rmsF : List Int → ℚ) (now : Nat)
    (buffer : AudioBuffer) :
    (p.processFrame rmsF now buffer).1.assembler.frameCount
      = p.assembler.frameCount + 1 := by
  unfold AudioPipeline.processFrame
  simp only
  split
  · simp [finalizeBatch]
  · simp

/- ============================================================ -/
/- Capture-run invariants (towards C10)                         -/
/- ============================================================ -/

/-- Invariant of the capture/consume interleaving: the enqueue history is
the consumer history followed by the queue contents (FIFO), both histories
are strictly increasing, every stamped number is below `sequence`, the
stamped numbers partition `0..sequence-1` into sent and dropped, and the
telemetry counters count the two histories. -/
def capInv (st : CaptureState) : Prop :=
  st.received.map (fun b => b.sequence) ++ st.queue.map (fun b => b.sequence)
      = st.sentSeqs ∧
  List.Pairwise (· < ·) st.sentSeqs ∧
  List.Pairwise (· < ·) st.droppedSeqs ∧
  (∀ n ∈ st.sentSeqs, n < st.sequence) ∧
  (∀ n ∈ st.droppedSeqs, n < st.sequence) ∧
  (∀ n, n < st.sequence → n ∈ st.sentSeqs ∨ n ∈ st.droppedSeqs) ∧
  (∀ n, ¬ (n ∈ st.sentSeqs ∧ n ∈ st.droppedSeqs)) ∧
  st.sentSeqs.length = st.framesCaptured ∧
  st.droppedSeqs.length = st.queueOverruns

theorem capInv_init : capInv initCapture := by
  unfold capInv initCapture
  simp

theorem capInv_step (st : CaptureState) (ev : CapEvent) (h : capInv st) :
    capInv (captureStep st ev) := by
  obtain ⟨h1, h2, h3, h4, h5, h6, h7, h8, h9⟩ := h
  cases ev with
  | read bytesRead pcm nowUs =>
    unfold captureStep
    dsimp only
    by_cases hb : 0 < bytesRead
    · rw [if_pos hb]
      by_cases hq : st.queue.length < QUEUE_DEPTH
      · rw [if_pos hq]
        unfold capInv
        dsimp only
        refine ⟨?_, ?_, h3, ?_, ?_, ?_, ?_, ?_, h9⟩
        · simp only [List.map_append, List.map_cons, List.map_nil]
          rw [← List.append_assoc, h1]
        · rw [List.pairwise_append]
          refine ⟨h2, List.pairwise_singleton _ _, ?_⟩
          intro a ha b hbm
          simp only [List.mem_singleton] at hbm
          subst hbm
          exact h4 a ha
        · intro n hn
          rcases List.mem_append.mp hn with hn | hn
          · exact Nat.lt_succ_of_lt (h4 n hn)
          · simp only [List.mem_singleton] at hn
            omega
        · intro n hn
          exact Nat.lt_succ_of_lt (h5 n hn)
        · intro n hn
          by_cases hlt : n < st.sequence
          · rcases h6 n hlt with hs | hd
            · exact Or.inl (List.mem_append_left _ hs)
            · exact Or.inr hd
          · have : n = st.sequence := by omega
            subst this
            exact Or.inl (List.mem_append_right _ (List.mem_singleton_self _))
        · intro n ⟨hs, hd⟩
          rcases List.mem_append.mp hs with hs | hs
          · exact h7 n ⟨hs, hd⟩
          · simp only [List.mem_singleton] at hs
            subst hs
            exact absurd (h5 _ hd) (lt_irrefl _)
        · simp only [List.length_append, List.length_singleton, h8]
      · rw [if_neg hq]
        unfold capInv
        dsimp only
        refine ⟨h1, h2, ?_, ?_, ?_, ?_, ?_, h8, ?_⟩
        · rw [List.pairwise_append]
          refine ⟨h3, List.pairwise_singleton _ _, ?_⟩
          intro a ha b hbm
          simp only [List.mem_singleton] at hbm
          subst hbm
          exact h5 a ha
        · intro n hn
          exact Nat.lt_succ_of_lt (h4 n hn)
        · intro n hn
          rcases List.mem_append.mp hn with hn | hn
          · exact Nat.lt_succ_of_lt (h5 n hn)
          · simp only [List.mem_singleton] at hn
            omega
        · intro n hn
          by_cases hlt : n < st.sequence
          · rcases h6 n hlt with hs | hd
            · exact Or.inl hs
            · exact Or.inr (List.mem_append_left _ hd)
          · have : n = st.sequence := by omega
            subst this
            exact Or.inr (List.mem_append_right _ (List.mem_singleton_self _))
        · intro n ⟨hs, hd⟩
          rcases List.mem_append.mp hd with hd | hd
          · exact h7 n ⟨hs, hd⟩
          · simp only [List.mem_singleton] at hd
            subst hd
            exact absurd (h4 _ hs) (lt_irrefl _)
        · simp only [List.length_append, List.length_singleton, h9]
    · rw [if_neg hb]
      exact ⟨h1, h2, h3, h4, h5, h6, h7, h8, h9⟩
  | consume =>
    unfold captureStep
    dsimp only
    split
    · exact ⟨h1, h2, h3, h4, h5, h6, h7, h8, h9⟩
    · rename_i b rest heq
      unfold capInv
      dsimp only
      refine ⟨?_, h2, h3, h4, h5, h6, h7, h8, h9⟩
      simp only [List.map_append, List.map_cons, List.map_nil]
      rw [← h1, heq]
      simp

theorem capInv_run (evs : List CapEvent) :
    ∀ st : CaptureState, capInv st → capInv (captureRun st evs) := by
  induction evs with
  | nil => intro st h; exact h
  | cons ev evs ih =>
    intro st h
    exact ih _ (capInv_step st ev h)

/-- In a strictly increasing `sent` whose union with `dropped` covers
`0..Q-1`, every number strictly between two adjacent sent entries was
dropped. -/
theorem sorted_gap_dropped (sent dropped : List Nat) (Q : Nat)
    (hpair : List.Pairwise (· < ·) sent) (hlt : ∀ m ∈ sent, m < Q)
    (hpart : ∀ m, m < Q → m ∈ sent ∨ m ∈ dropped)
    (i : Nat) (hi : i + 1 < sent.length) (n : Nat)
    (hgt : sent.get ⟨i, by omega⟩ < n) (hlt2 : n < sent.get ⟨i + 1, hi⟩) :
    n ∈ dropped := by
  have hnQ : n < Q :=
    lt_trans hlt2 (hlt _ (sent.get_mem (i + 1) hi))
  rcases hpart n hnQ with hsent | hd
  · exfalso
    obtain ⟨j, hj⟩ := List.mem_iff_get.mp hsent
    have hp := List.pairwise_iff_get.mp hpair
    rcases Nat.lt_trichotomy (j : Nat) (i + 1) with hj1 | hj1 | hj1
    · rcases Nat.lt_trichotomy (j : Nat) i with hj2 | hj2 | hj2
      · have := hp j ⟨i, by omega⟩ (by simpa using hj2)
        omega
      · have : j = (⟨i, by omega⟩ : Fin sent.length) := Fin.ext hj2
        rw [this] at hj
        omega
      · omega
    · have : j = (⟨i + 1, hi⟩ : Fin sent.length) := Fin.ext hj1
      rw [this] at hj
      omega
    · have := hp ⟨i + 1, hi⟩ j (by simpa using hj1)
      omega
  · exact hd

/- ============================================================ -/
/- Timed-send lemmas (towards C1)                               -/
/- ============================================================ -/

/-- The blocked time never exceeds the tick budget. -/
theorem xQueueSendTimed_wait_le (avail : Nat → Bool) (budget : Nat) :
    (xQueueSendTimed avail budget).2 ≤ budget := by
  unfold xQueueSendTimed
  cases hf : (List.range budget).find? avail with
  | none => exact Nat.le_refl _
  | some t =>
    dsimp only
    have hmem := List.mem_of_find?_eq_some hf
    have := List.mem_range.mp hmem
    omega

/-- Outcome of one capture-loop send attempt under the timed model. -/
theorem captureIterTimed_spec (avail : Nat → Bool) (st : CaptureState)
    (pcm : List Int) (nowUs : Nat) :
    (captureIterTimed avail st pcm nowUs).2 ≤ captureSendTicks ∧
    (captureIterTimed avail st pcm nowUs).1.sequence = st.sequence + 1 ∧
    ((xQueueSendTimed avail captureSendTicks).1 = false →
      (captureIterTimed avail st pcm nowUs).1.queueOverruns
          = st.queueOverruns + 1 ∧
      (captureIterTimed avail st pcm nowUs).1.framesCaptured
          = st.framesCaptured ∧
      (captureIterTimed avail st pcm nowUs).1.queue = st.queue ∧
      (captureIterTimed avail st pcm nowUs).1.droppedSeqs
          = st.droppedSeqs ++ [st.sequence]) ∧
    ((xQueueSendTimed avail captureSendTicks).1 = true →
      (captureIterTimed avail st pcm nowUs).1.framesCaptured
          = st.framesCaptured + 1 ∧
      (captureIterTimed avail st pcm nowUs).1.queueOverruns
          = st.queueOverruns ∧
      (captureIterTimed avail st pcm nowUs).1.queue
          = st.queue ++ [{ pcm := pcm, sequence := st.sequence,
                           timestampUs := nowUs }]) := by
  unfold captureIterTimed
  dsimp only
  refine ⟨?_, ?_, ?_, ?_⟩
  · split <;> exact xQueueSendTimed_wait_le avail captureSendTicks
  · split <;> rfl
  · intro hf
    rw [hf]
    simp
  · intro ht
    rw [ht]
    simp

/- ============================================================ -/
/- Transmit-sender run lemmas (towards C7)                      -/
/- ============================================================ -/

/-- While disconnected and with no connect notification, the Transmit
Sender performs zero network calls, whatever batches arrive. -/
theorem wsRun_disconnected (evs : List WsEvent) :
    ∀ ws : WebSocketManager, ws.connected = false →
      (∀ e ∈ evs, e ≠ WsEvent.connected) → wsRun ws evs = [] := by
  induction evs with
  | nil => intro ws hws hevs; rfl
  | cons ev evs ih =>
    intro ws hws hevs
    have hev : ev ≠ WsEvent.connected := hevs ev (List.mem_cons_self _ _)
    have hevs2 : ∀ e ∈ evs, e ≠ WsEvent.connected :=
      fun e he => hevs e (List.mem_cons_of_mem _ he)
    cases ev with
    | connected => exact absurd rfl hev
    | disconnected =>
      show [] ++ wsRun { connected := false } evs = []
      rw [List.nil_append]
      exact ih _ rfl hevs2
    | batchReady b =>
      show sendBatch ws b ++ wsRun ws evs = []
      unfold sendBatch
      rw [hws]
      simp only [Bool.false_eq_true, if_false, List.nil_append]
      exact ih ws hws hevs2

/-- With no connect notification, no textual message is ever sent (whether
connected or not): only `connected` events emit the handshake. -/
theorem wsRun_no_text (evs : List WsEvent) :
    ∀ ws : WebSocketManager, (∀ e ∈ evs, e ≠ WsEvent.connected) →
      ∀ m : HandshakeMsg, SendCall.sendText m ∉ wsRun ws evs := by
  induction evs with
  | nil => intro ws hevs m hm; simp [wsRun] at hm
  | cons ev evs ih =>
    intro ws hevs m hm
    have hev : ev ≠ WsEvent.connected := hevs ev (List.mem_cons_self _ _)
    have hevs2 : ∀ e ∈ evs, e ≠ WsEvent.connected :=
      fun e he => hevs e (List.mem_cons_of_mem _ he)
    cases ev with
    | connected => exact absurd rfl hev
    | disconnected =>
      rw [show wsRun ws (WsEvent.disconnected :: evs)
            = [] ++ wsRun { connected := false } evs from rfl,
          List.nil_append] at hm
      exact ih _ hevs2 m hm
    | batchReady b =>
      rw [show wsRun ws (WsEvent.batchReady b :: evs)
            = sendBatch ws b ++ wsRun ws evs from rfl] at hm
      rcases List.mem_append.mp hm with hm | hm
      · unfold sendBatch at hm
        by_cases hc : ws.connected = true
        · rw [if_pos hc] at hm
          simp at hm
        · rw [if_neg hc] at hm
          simp at hm
      · exact ih ws hevs2 m hm

/-- Entering Connected emits the handshake first, before anything else sent
on that connection. -/
theorem wsRun_connect (ws : WebSocketManager) (evs : List WsEvent) :
    wsRun ws (WsEvent.connected :: evs)
      = SendCall.sendText handshakeMsg :: wsRun { connected := true } evs := rfl

/- ============================================================ -/
/- Claim theorems                                               -/
/- ============================================================ -/

/-- C1 counterexample: the claim says the Capture stage's send into the
Frame Queue "fails immediately (zero wait)" on a full queue, for every
queue state.  main.cpp:608 passes `pdMS_TO_TICKS(10)` as the block time:
when no queue space becomes available for the whole window (`avail`
constantly false), `xQueueSend` keeps the capture task blocked for the
full 10-tick budget — not zero — before failing. -/
theorem C1_counterexample :
    (xQueueSendTimed (fun _ => false) captureSendTicks).1 = false ∧
    (xQueueSendTimed (fun _ => false) captureSendTicks).2 = 10 ∧
    captureSendTicks ≠ 0 := by decide

/-- C1 (amended): the capture send into the Frame Queue uses a bounded
10 ms (= 10 tick) timeout, not a zero-wait trySend: the capture task
blocks at most `pdMS_TO_TICKS(10)` ticks inside `xQueueSend`; if the queue
stays full for the whole window the send fails, the frame is dropped (the
queue is unchanged and the frame is only recorded as dropped) and the
overflow counter `queueOverruns` is incremented by exactly one; on success
`framesCaptured` increments and no drop is recorded. -/
theorem C1_thm (avail : Nat → Bool) (st : CaptureState) (pcm : List Int)
    (nowUs : Nat) :
    (captureIterTimed avail st pcm nowUs).2 ≤ pdMS_TO_TICKS 10 ∧
    ((xQueueSendTimed avail captureSendTicks).1 = false →
      (captureIterTimed avail st pcm nowUs).1.queueOverruns
          = st.queueOverruns + 1 ∧
      (captureIterTimed avail st pcm nowUs).1.queue = st.queue ∧
      (captureIterTimed avail st pcm nowUs).1.framesCaptured
          = st.framesCaptured) ∧
    ((xQueueSendTimed avail captureSendTicks).1 = true →
      (captureIterTimed avail st pcm nowUs).1.framesCaptured
          = st.framesCaptured + 1 ∧
      (captureIterTimed avail st pcm nowUs).1.queueOverruns
          = st.queueOverruns) := by
  obtain ⟨w, s, f, t⟩ := captureIterTimed_spec avail st pcm nowUs
  exact ⟨w, fun h => ⟨(f h).1, (f h).2.2.1, (f h).2.1⟩,
         fun h => ⟨(t h).1, (t h).2.1⟩⟩

theorem C1_witness :
    (xQueueSendTimed (fun _ => false) captureSendTicks).1 = false ∧
    (captureIterTimed (fun _ => false) initCapture [] 0).2 ≤ pdMS_TO_TICKS 10 ∧
    (captureIterTimed (fun _ => false) initCapture [] 0).1.queueOverruns
        = initCapture.queueOverruns + 1 :=
  ⟨by decide, (C1_thm (fun _ => false) initCapture [] 0).1,
   ((C1_thm (fun _ => false) initCapture [] 0).2.1 (by decide)).1⟩

/-- C4: on a send to a full Output Queue (capacity C), the oldest entry is
evicted from the front, the new entry is inserted with its discontinuity
flag set, the queue size stays C, and the overflow counter increments by
exactly one.  (Output-queue machinery modelled from the spec §4.5; src/
holds only its declarations in include/audio_config.h.) -/
theorem C4_thm (c : Nat) (q : List OutEntry) (e : OutEntry) (ovf : Nat)
    (old : OutEntry) (rest : List OutEntry)
    (hq : q = old :: rest) (hlen : q.length = c)
    (hnotin : old ∉ rest) (hne : old ≠ { e with discontinuity := true }) :
    (outputQueueSend c q e ovf).1.length = c ∧
    old ∉ (outputQueueSend c q e ovf).1 ∧
    ({ e with discontinuity := true } : OutEntry) ∈ (outputQueueSend c q e ovf).1 ∧
    (outputQueueSend c q e ovf).2 = ovf + 1 := by
  subst hq
  unfold outputQueueSend
  have hcond : ¬ (old :: rest).length < c := by omega
  rw [if_neg hcond]
  simp only [List.length_cons] at hlen
  dsimp only
  refine ⟨?_, ?_, ?_, rfl⟩
  · simp only [List.length_append, List.length_cons, List.length_nil,
               List.drop_one, List.tail_cons]
    omega
  · intro hmem
    simp only [List.drop_one, List.tail_cons] at hmem
    rcases List.mem_append.mp hmem with hm | hm
    · exact hnotin hm
    · simp only [List.mem_singleton] at hm
      exact hne hm
  · simp only [List.drop_one, List.tail_cons]
    exact List.mem_append_right _ (List.mem_singleton_self _)

theorem C4_witness :
    ([{ payload := dfltPBatch, discontinuity := false },
      { payload := { dfltPBatch with frames := [zeroPFrame] },
        discontinuity := false }] : List OutEntry).length = 2 ∧
    (outputQueueSend 2
      [{ payload := dfltPBatch, discontinuity := false },
       { payload := { dfltPBatch with frames := [zeroPFrame] },
         discontinuity := false }]
      { payload := dfltPBatch, discontinuity := false } 5).1.length = 2 ∧
    ({ payload := dfltPBatch, discontinuity := false } : OutEntry) ∉
      (outputQueueSend 2
        [{ payload := dfltPBatch, discontinuity := false },
         { payload := { dfltPBatch with frames := [zeroPFrame] },
           discontinuity := false }]
        { payload := dfltPBatch, discontinuity := false } 5).1 ∧
    (outputQueueSend 2
      [{ payload := dfltPBatch, discontinuity := false },
       { payload := { dfltPBatch with frames := [zeroPFrame] },
         discontinuity := false }]
      { payload := dfltPBatch, discontinuity := false } 5).2 = 5 + 1 := by
  have h := C4_thm 2
    [{ payload := dfltPBatch, discontinuity := false },
     { payload := { dfltPBatch with frames := [zeroPFrame] },
       discontinuity := false }]
    { payload := dfltPBatch, discontinuity := false } 5
    { payload := dfltPBatch, discontinuity := false }
    [{ payload := { dfltPBatch with frames := [zeroPFrame] },
       discontinuity := false }]
    rfl (by decide) (by decide) (by decide)
  exact ⟨by decide, h.1, h.2.1, h.2.2.2⟩

/-- C5: PassThrough (modelled from the spec; absent from src/) reproduces
its input exactly, and ScaledPassThrough = `applyScale` at
`CLEAN_PCM_SCALE = 0.8f` produces, at every sample position, exactly
`clamp(input[i] * 0.8, INT16_MIN, INT16_MAX)` (exact arithmetic, int16
truncation); the scale constant is at most 1.0. -/
theorem C5_thm (input : List Int)
    (h : ∀ x ∈ input, -32768 ≤ x ∧ x ≤ 32767) :
    (passThroughProcessFrame input).1 = input ∧
    (procProcessFrame ProcKind.scaledPassThrough input).1
        = input.map clampedScale ∧
    (f32ScaleNum : ℚ) / 2 ^ 24 ≤ 1 := by
  refine ⟨rfl, ?_, by norm_num [f32ScaleNum]⟩
  show applyScale input = input.map clampedScale
  unfold applyScale
  apply List.map_congr_left
  intro x hx
  exact scaleSample_eq_clampedScale x (h x hx).1 (h x hx).2

theorem C5_witness :
    (∀ x ∈ ([1000, -5, 32767, -32768, 0] : List Int),
        -32768 ≤ x ∧ x ≤ 32767) ∧
    (procProcessFrame ProcKind.scaledPassThrough [1000, -5, 32767, -32768, 0]).1
        = ([1000, -5, 32767, -32768, 0] : List Int).map clampedScale :=
  ⟨by decide, (C5_thm [1000, -5, 32767, -32768, 0] (by decide)).2.1⟩

/-- C6: if the supplied strategy's `init()` fails, `AudioPipeline::begin`
substitutes the known-good ScaledPassThrough strategy and still returns
true; if `init()` succeeds the supplied strategy is kept (and begin still
returns true). -/
theorem C6_thm (p : AudioPipeline) (proc : ProcKind) :
    (p.begin proc).2 = true ∧
    (procInit proc = false →
      (p.begin proc).1.processor = ProcKind.scaledPassThrough) ∧
    (procInit proc = true → (p.begin proc).1.processor = proc) := by
  unfold AudioPipeline.begin
  refine ⟨rfl, ?_, ?_⟩ <;> intro h <;> simp [h]

theorem C6_witness :
    procInit ProcKind.aiModel = false ∧
    (initPipeline.begin ProcKind.aiModel).1.processor
        = ProcKind.scaledPassThrough ∧
    (initPipeline.begin ProcKind.aiModel).2 = true ∧
    procInit ProcKind.scaledPassThrough = true ∧
    (initPipeline.begin ProcKind.scaledPassThrough).1.processor
        = ProcKind.scaledPassThrough :=
  ⟨by decide, (C6_thm initPipeline ProcKind.aiModel).2.1 (by decide),
   (C6_thm initPipeline ProcKind.aiModel).1, by decide,
   (C6_thm initPipeline ProcKind.scaledPassThrough).2.2 (by decide)⟩

/-- C7: while `isConnected()` is false the Transmit Sender performs zero
`sendBinary`/`sendText` calls regardless of Output Queue activity
(`sendBatch` bails out; a whole disconnected run emits nothing), and every
transition into Connected emits exactly one textual handshake — carrying
the stream parameters (sample rate, frame size, encoding) — before any
binary payload of that connection (no further textual message until the
next connect). -/
theorem C7_thm :
    (∀ (ws : WebSocketManager) (b : BatchPacket),
      ws.connected = false → sendBatch ws b = []) ∧
    (∀ (ws : WebSocketManager) (evs : List WsEvent), ws.connected = false →
      (∀ e ∈ evs, e ≠ WsEvent.connected) → wsRun ws evs = []) ∧
    (∀ (ws : WebSocketManager) (evs : List WsEvent),
      wsRun ws (WsEvent.connected :: evs)
        = SendCall.sendText handshakeMsg :: wsRun { connected := true } evs) ∧
    (∀ evs : List WsEvent, (∀ e ∈ evs, e ≠ WsEvent.connected) →
      ∀ m, SendCall.sendText m ∉ wsRun { connected := true } evs) ∧
    handshakeMsg.sampleRate = SAMPLE_RATE ∧
    handshakeMsg.frameSize = FRAME_SIZE := by
  refine ⟨?_, ?_, fun ws evs => wsRun_connect ws evs,
          fun evs h m => wsRun_no_text evs _ h m, rfl, rfl⟩
  · intro ws b h
    unfold sendBatch
    rw [h]
    simp
  · exact fun ws evs h1 h2 => wsRun_disconnected evs ws h1 h2

theorem C7_witness :
    (({ connected := false } : WebSocketManager).connected = false) ∧
    wsRun { connected := false }
      [WsEvent.batchReady ⟨⟨0, 0, 0, 0, 0, 0, 0⟩, []⟩] = [] ∧
    (SendCall.sendText handshakeMsg) ∉
      wsRun { connected := true }
        [WsEvent.batchReady ⟨⟨0, 0, 0, 0, 0, 0, 0⟩, []⟩] :=
  ⟨rfl,
   C7_thm.2.1 { connected := false } _ rfl (by decide),
   C7_thm.2.2.2.1 _ (by decide) handshakeMsg⟩

/-- C8: the AI-model stub's `init()` always returns false (so any pipeline
begun with it runs the ScaledPassThrough fallback), and its
`processFrame()` writes exactly the same output samples as
ScaledPassThrough — both are `applyScale` at 0.8 — differing only in the
returned VAD (0.5f instead of 0.99f). -/
theorem C8_thm (input : List Int) (p : AudioPipeline) :
    procInit ProcKind.aiModel = false ∧
    (procProcessFrame ProcKind.aiModel input).1
        = (procProcessFrame ProcKind.scaledPassThrough input).1 ∧
    (procProcessFrame ProcKind.aiModel input).2 = VAD_AI_STUB ∧
    (procProcessFrame ProcKind.scaledPassThrough input).2
        = VAD_SCALED_PASSTHROUGH ∧
    (procProcessFrame ProcKind.aiModel input).2
        ≠ (procProcessFrame ProcKind.scaledPassThrough input).2 ∧
    (p.begin ProcKind.aiModel).1.processor = ProcKind.scaledPassThrough := by
  refine ⟨rfl, rfl, rfl, rfl, ?_, rfl⟩
  unfold procProcessFrame VAD_AI_STUB VAD_SCALED_PASSTHROUGH
  norm_num

/-- `processFrame` reports a ready batch exactly when the incremented
count reaches `FRAMES_PER_BATCH`. -/
theorem processFrame_true_iff (p : AudioPipeline) (rmsF : List Int → ℚ)
    (now : Nat) (buffer : AudioBuffer) :
    (p.processFrame rmsF now buffer).2 = true ↔
      FRAMES_PER_BATCH ≤ p.assembler.frameCount + 1 := by
  unfold AudioPipeline.processFrame
  dsimp only
  split
  · rename_i h
    simpa using h
  · rename_i h
    simpa using h

/-- C2: in the program's processing loop, started from `begin` (assembler
reset, `batchSequence` still 0 from construction), a batch becomes visible
downstream only on sealing, every visible batch holds exactly
`FRAMES_PER_BATCH` frames, exactly `⌊inputs/4⌋` batches are sealed, and
the k-th sealed batch carries `batch_seq = k` — strictly increasing, no
gaps, no repeats, across assembler resets. -/
theorem C2_thm (proc : ProcKind) (rmsF : List Int → ℚ)
    (inputs : List (AudioBuffer × Nat)) :
    (taskAudioProcessingRun (initPipeline.begin proc).1 rmsF inputs).2.length
        = inputs.length / FRAMES_PER_BATCH ∧
    ∀ k, k < (taskAudioProcessingRun (initPipeline.begin proc).1 rmsF
                inputs).2.length →
      ((taskAudioProcessingRun (initPipeline.begin proc).1 rmsF
          inputs).2.getD k dfltPBatch).header.batch_seq = k ∧
      ((taskAudioProcessingRun (initPipeline.begin proc).1 rmsF
          inputs).2.getD k dfltPBatch).frames.length = FRAMES_PER_BATCH := by
  have hc : (initPipeline.begin proc).1.assembler.frameCount
      < FRAMES_PER_BATCH := by
    show (0 : Nat) < FRAMES_PER_BATCH
    decide
  have hl : (initPipeline.begin proc).1.assembler.packet.frames.length
      = FRAMES_PER_BATCH := by
    show (List.replicate FRAMES_PER_BATCH zeroPFrame).length = FRAMES_PER_BATCH
    exact List.length_replicate _ _
  obtain ⟨hlen, hseq⟩ := taskRun_spec rmsF inputs (initPipeline.begin proc).1 hc hl
  constructor
  · rw [hlen]
    show (0 + inputs.length) / FRAMES_PER_BATCH = _
    rw [Nat.zero_add]
  · intro k hk
    obtain ⟨h1, h2⟩ := hseq k hk
    refine ⟨?_, h2⟩
    rw [h1]
    show (0 : Nat) + k = k
    rw [Nat.zero_add]

theorem C2_witness :
    (0 : Nat) <
      (taskAudioProcessingRun
        (initPipeline.begin ProcKind.scaledPassThrough).1 (fun _ => 0)
        (List.replicate 4 (⟨⟨[], 0, 0⟩, 0⟩))).2.length ∧
    ((taskAudioProcessingRun
        (initPipeline.begin ProcKind.scaledPassThrough).1 (fun _ => 0)
        (List.replicate 4 (⟨⟨[], 0, 0⟩, 0⟩))).2.getD 0 dfltPBatch).header.batch_seq
      = 0 ∧
    (taskAudioProcessingRun
        (initPipeline.begin ProcKind.scaledPassThrough).1 (fun _ => 0)
        (List.replicate 4 (⟨⟨[], 0, 0⟩, 0⟩))).2.length
      = (List.replicate 4 ((⟨⟨[], 0, 0⟩, 0⟩ : AudioBuffer × Nat))).length
          / FRAMES_PER_BATCH :=
  ⟨by decide,
   ((C2_thm ProcKind.scaledPassThrough (fun _ => 0)
      (List.replicate 4 (⟨⟨[], 0, 0⟩, 0⟩))).2 0 (by decide)).1,
   (C2_thm ProcKind.scaledPassThrough (fun _ => 0)
      (List.replicate 4 (⟨⟨[], 0, 0⟩, 0⟩))).1⟩

/-- C9: in the disciplined processing loop (which calls `markTransmitted`
whenever `processFrame` reports a ready batch), at entry to every
`processFrame` call the assembler satisfies
`frameCount < FRAMES_PER_BATCH = packet.frames array length`, so the write
`packet.frames[frameCount]` is in bounds; and `processFrame` alone never
resets the count — after a call that sealed a batch the count sits at
`FRAMES_PER_BATCH`, so a further call without `markTransmitted` would
index `frames[FRAMES_PER_BATCH]`, out of bounds. -/
theorem C9_thm (proc : ProcKind) (rmsF : List Int → ℚ)
    (inputs : List (AudioBuffer × Nat)) :
    (∀ q ∈ taskAudioProcessingStates (initPipeline.begin proc).1 rmsF inputs,
      q.assembler.frameCount < FRAMES_PER_BATCH ∧
      q.assembler.frameCount < q.assembler.packet.frames.length) ∧
    (∀ (p : AudioPipeline) (now : Nat) (buffer : AudioBuffer),
      (p.processFrame rmsF now buffer).2 = true →
      (p.processFrame rmsF now buffer).1.assembler.frameCount
          = p.assembler.frameCount + 1 ∧
      FRAMES_PER_BATCH ≤
        (p.processFrame rmsF now buffer).1.assembler.frameCount) := by
  constructor
  · intro q hq
    have hc : (initPipeline.begin proc).1.assembler.frameCount
        < FRAMES_PER_BATCH := by
      show (0 : Nat) < FRAMES_PER_BATCH
      decide
    have hl : (initPipeline.begin proc).1.assembler.packet.frames.length
        = FRAMES_PER_BATCH := by
      show (List.replicate FRAMES_PER_BATCH zeroPFrame).length = FRAMES_PER_BATCH
      exact List.length_replicate _ _
    obtain ⟨h1, h2⟩ := procStates_inv rmsF inputs (initPipeline.begin proc).1 hc hl q hq
    exact ⟨h1, by omega⟩
  · intro p now buffer ht
    have hcount := processFrame_count p rmsF now buffer
    have hcond := (processFrame_true_iff p rmsF now buffer).mp ht
    exact ⟨hcount, by omega⟩

set_option maxRecDepth 100000 in
theorem C9_witness :
    ((initPipeline.begin ProcKind.scaledPassThrough).1 ∈
      taskAudioProcessingStates
        (initPipeline.begin ProcKind.scaledPassThrough).1 (fun _ => 0)
        [(⟨⟨[], 0, 0⟩, 0⟩)]) ∧
    (initPipeline.begin ProcKind.scaledPassThrough).1.assembler.frameCount
        < FRAMES_PER_BATCH ∧
    ((({ processor := ProcKind.scaledPassThrough,
         assembler := { packet := dfltPBatch, frameCount := 3,
                        batchSequence := 0 } } :
        AudioPipeline).processFrame (fun _ => 0) 0 ⟨[], 0, 0⟩).2 = true ∧
     FRAMES_PER_BATCH ≤
       (({ processor := ProcKind.scaledPassThrough,
           assembler := { packet := dfltPBatch, frameCount := 3,
                          batchSequence := 0 } } :
          AudioPipeline).processFrame (fun _ => 0) 0 ⟨[], 0, 0⟩).1.assembler.frameCount) :=
  ⟨by decide,
   ((C9_thm ProcKind.scaledPassThrough (fun _ => 0) [(⟨⟨[], 0, 0⟩, 0⟩)]).1 _
      (by decide)).1,
   by decide,
   ((C9_thm ProcKind.scaledPassThrough (fun _ => 0) [(⟨⟨[], 0, 0⟩, 0⟩)]).2
      { processor := ProcKind.scaledPassThrough,
        assembler := { packet := dfltPBatch, frameCount := 3,
                       batchSequence := 0 } } 0 ⟨[], 0, 0⟩ (by decide)).2⟩

/-- C10: every successful hardware read stamps the capture task's running
`sequence` counter on the frame and increments it by exactly one — also
for frames subsequently dropped on a full queue, where `queueOverruns`
increments by one instead; hence the sequence numbers received by the
processing task are strictly increasing, every number strictly between two
consecutively enqueued ones belongs to a dropped frame, and the overflow
counter equals the number of dropped frames. -/
theorem C10_thm (evs : List CapEvent) :
    (∀ (st : CaptureState) (n : Nat) (pcm : List Int) (us : Nat), 0 < n →
      (captureStep st (CapEvent.read n pcm us)).sequence = st.sequence + 1 ∧
      ((captureStep st (CapEvent.read n pcm us)).sentSeqs
            = st.sentSeqs ++ [st.sequence] ∧
        (captureStep st (CapEvent.read n pcm us)).queueOverruns
            = st.queueOverruns ∨
       (captureStep st (CapEvent.read n pcm us)).droppedSeqs
            = st.droppedSeqs ++ [st.sequence] ∧
        (captureStep st (CapEvent.read n pcm us)).queueOverruns
            = st.queueOverruns + 1)) ∧
    List.Pairwise (· < ·)
      ((captureRun initCapture evs).received.map (fun b => b.sequence)) ∧
    (∀ (i : Nat) (hi : i + 1 < (captureRun initCapture evs).sentSeqs.length)
        (n : Nat),
      (captureRun initCapture evs).sentSeqs.get ⟨i, by omega⟩ < n →
      n < (captureRun initCapture evs).sentSeqs.get ⟨i + 1, hi⟩ →
      n ∈ (captureRun initCapture evs).droppedSeqs) ∧
    (captureRun initCapture evs).droppedSeqs.length
        = (captureRun initCapture evs).queueOverruns ∧
    (captureRun initCapture evs).sentSeqs.length
        = (captureRun initCapture evs).framesCaptured := by
  obtain ⟨h1, h2, h3, h4, h5, h6, h7, h8, h9⟩ :=
    capInv_run evs initCapture capInv_init
  refine ⟨?_, ?_, ?_, h9, h8⟩
  · intro st n pcm us hn
    unfold captureStep
    dsimp only
    rw [if_pos hn]
    by_cases hq : st.queue.length < QUEUE_DEPTH
    · rw [if_pos hq]
      exact ⟨rfl, Or.inl ⟨rfl, rfl⟩⟩
    · rw [if_neg hq]
      exact ⟨rfl, Or.inr ⟨rfl, rfl⟩⟩
  · rw [← h1] at h2
    exact (List.pairwise_append.mp h2).1
  · exact fun i hi n hgt hlt2 =>
      sorted_gap_dropped _ _ _ h2 h4 h6 i hi n hgt hlt2

set_option maxRecDepth 100000 in
theorem C10_witness :
    7 + 1 < (captureRun initCapture
        (List.replicate 9 (CapEvent.read 1920 [] 0) ++
         [CapEvent.consume, CapEvent.read 1920 [] 0])).sentSeqs.length ∧
    8 ∈ (captureRun initCapture
        (List.replicate 9 (CapEvent.read 1920 [] 0) ++
         [CapEvent.consume, CapEvent.read 1920 [] 0])).droppedSeqs ∧
    (captureRun initCapture
        (List.replicate 9 (CapEvent.read 1920 [] 0) ++
         [CapEvent.consume, CapEvent.read 1920 [] 0])).droppedSeqs.length
      = (captureRun initCapture
          (List.replicate 9 (CapEvent.read 1920 [] 0) ++
           [CapEvent.consume, CapEvent.read 1920 [] 0])).queueOverruns :=
  ⟨by decide,
   (C10_thm (List.replicate 9 (CapEvent.read 1920 [] 0) ++
      [CapEvent.consume, CapEvent.read 1920 [] 0])).2.2.1 7 (by decide) 8
      (by decide) (by decide),
   (C10_thm (List.replicate 9 (CapEvent.read 1920 [] 0) ++
      [CapEvent.consume, CapEvent.read 1920 [] 0])).2.2.2.1⟩

def dfltAudioFrame : AudioFrame :=
  { frame_seq := 0, vad_prob := 0, rms_raw := 0, raw_pcm := [], clean_pcm := [] }

/-- Byte offsets of the five fields inside one serialized frame record:
frame_seq at 0, vad_prob at 4, rms_raw at 8, raw_pcm at 12,
clean_pcm at 12 + 960 = 972. -/
theorem encFrame_fields (f : AudioFrame) (hw : f.wf) (T : List Nat) :
    seg (encFrame f ++ T) 0 4 = u32le f.frame_seq ∧
    seg (encFrame f ++ T) 4 4 = u32le f.vad_prob ∧
    seg (encFrame f ++ T) 8 4 = u32le f.rms_raw ∧
    seg (encFrame f ++ T) 12 960 = encPcm f.raw_pcm ∧
    seg (encFrame f ++ T) 972 960 = encPcm f.clean_pcm := by
  obtain ⟨_, _, _, hr, hc, _, _⟩ := hw
  have hlr : (encPcm f.raw_pcm).length = 960 := by
    rw [encPcm_length, hr]
    rfl
  have hlc : (encPcm f.clean_pcm).length = 960 := by
    rw [encPcm_length, hc]
    rfl
  have hdrop12 : (encFrame f ++ T).drop 12
      = (encPcm f.raw_pcm ++ encPcm f.clean_pcm) ++ T := rfl
  refine ⟨rfl, rfl, rfl, ?_, ?_⟩
  · show ((encFrame f ++ T).drop 12).take 960 = encPcm f.raw_pcm
    rw [hdrop12, List.append_assoc]
    exact take_len_append _ _ 960 hlr
  · show ((encFrame f ++ T).drop 972).take 960 = encPcm f.clean_pcm
    have h972 : (encFrame f ++ T).drop 972 = ((encFrame f ++ T).drop 12).drop 960 := by
      rw [List.drop_drop]
    rw [h972, hdrop12, List.append_assoc,
        drop_len_append _ _ 960 hlr]
    exact take_len_append _ _ 960 hlc

/-- C3: with frameSampleCount = 480 and frames-per-batch = 4, the
serialized batch is exactly 16 header bytes plus 4 frame records of 1932
bytes each — 7744 bytes in total; the header fields sit at offsets 0
(magic), 4 (version), 5 (reserved), 8 (batch_seq), 12 (timestamp_ms), the
k-th frame record starts at 16 + 1932k with its fields at the offsets of
`encFrame_fields`; and decoding the serialization recovers every field
value identically. -/
theorem C3_thm (p : BatchPacket) (h : p.wf) :
    (encPacket p).length = 7744 ∧
    seg (encPacket p) 0 4 = u32le p.header.magic ∧
    seg (encPacket p) 4 1 = [p.header.version] ∧
    seg (encPacket p) 5 3
        = [p.header.reserved0, p.header.reserved1, p.header.reserved2] ∧
    seg (encPacket p) 8 4 = u32le p.header.batch_seq ∧
    seg (encPacket p) 12 4 = u32le p.header.timestamp_ms ∧
    (∀ k, k < FRAMES_PER_BATCH →
      seg (encPacket p) (16 + 1932 * k) 4
          = u32le ((p.frames.getD k dfltAudioFrame).frame_seq) ∧
      seg (encPacket p) (16 + 1932 * k + 4) 4
          = u32le ((p.frames.getD k dfltAudioFrame).vad_prob) ∧
      seg (encPacket p) (16 + 1932 * k + 8) 4
          = u32le ((p.frames.getD k dfltAudioFrame).rms_raw) ∧
      seg (encPacket p) (16 + 1932 * k + 12) 960
          = encPcm ((p.frames.getD k dfltAudioFrame).raw_pcm) ∧
      seg (encPacket p) (16 + 1932 * k + 972) 960
          = encPcm ((p.frames.getD k dfltAudioFrame).clean_pcm)) ∧
    decPacket (encPacket p) = some p := by
  have hlen := encPacket_length p h
  have hrt := decPacket_encPacket p h
  obtain ⟨hh, hflen, hfwf⟩ := h
  obtain ⟨hdr, frames⟩ := p
  obtain ⟨f0, f1, f2, f3, rfl⟩ := list_len4 frames hflen
  have w0 : f0.wf := hfwf f0 (by simp)
  have w1 : f1.wf := hfwf f1 (by simp)
  have w2 : f2.wf := hfwf f2 (by simp)
  have w3 : f3.wf := hfwf f3 (by simp)
  have e0 := encFrame_length f0 w0
  have e1 := encFrame_length f1 w1
  have e2 := encFrame_length f2 w2
  have hD0 : (encPacket ⟨hdr, [f0, f1, f2, f3]⟩).drop 16
      = encFrame f0 ++ (encFrame f1 ++ (encFrame f2 ++ (encFrame f3 ++ []))) :=
    rfl
  have hD1 : (encPacket ⟨hdr, [f0, f1, f2, f3]⟩).drop 1948
      = encFrame f1 ++ (encFrame f2 ++ (encFrame f3 ++ [])) := by
    have hx : (1948 : Nat) = 16 + 1932 := by norm_num
    rw [hx, ← List.drop_drop, hD0, drop_len_append _ _ 1932 e0]
  have hD2 : (encPacket ⟨hdr, [f0, f1, f2, f3]⟩).drop 3880
      = encFrame f2 ++ (encFrame f3 ++ []) := by
    have hx : (3880 : Nat) = 1948 + 1932 := by norm_num
    rw [hx, ← List.drop_drop, hD1, drop_len_append _ _ 1932 e1]
  have hD3 : (encPacket ⟨hdr, [f0, f1, f2, f3]⟩).drop 5812
      = encFrame f3 ++ [] := by
    have hx : (5812 : Nat) = 3880 + 1932 := by norm_num
    rw [hx, ← List.drop_drop, hD2, drop_len_append _ _ 1932 e2]
  have F0 := encFrame_fields f0 w0
    (encFrame f1 ++ (encFrame f2 ++ (encFrame f3 ++ [])))
  have F1 := encFrame_fields f1 w1 (encFrame f2 ++ (encFrame f3 ++ []))
  have F2 := encFrame_fields f2 w2 (encFrame f3 ++ [])
  have F3 := encFrame_fields f3 w3 []
  refine ⟨hlen, rfl, rfl, rfl, rfl, rfl, ?_, hrt⟩
  intro k hk
  have hk4 : k < 4 := hk
  clear hk
  interval_cases k
  · refine ⟨?_, ?_, ?_, ?_, ?_⟩
    · rw [show (16 + 1932 * 0 : Nat) = 16 + 0 from by norm_num, seg_shift, hD0]
      exact F0.1
    · rw [show (16 + 1932 * 0 + 4 : Nat) = 16 + 4 from by norm_num,
          seg_shift, hD0]
      exact F0.2.1
    · rw [show (16 + 1932 * 0 + 8 : Nat) = 16 + 8 from by norm_num,
          seg_shift, hD0]
      exact F0.2.2.1
    · rw [show (16 + 1932 * 0 + 12 : Nat) = 16 + 12 from by norm_num,
          seg_shift, hD0]
      exact F0.2.2.2.1
    · rw [show (16 + 1932 * 0 + 972 : Nat) = 16 + 972 from by norm_num,
          seg_shift, hD0]
      exact F0.2.2.2.2
  · refine ⟨?_, ?_, ?_, ?_, ?_⟩
    · rw [show (16 + 1932 * 1 : Nat) = 1948 + 0 from by norm_num, seg_shift, hD1]
      exact F1.1
    · rw [show (16 + 1932 * 1 + 4 : Nat) = 1948 + 4 from by norm_num,
          seg_shift, hD1]
      exact F1.2.1
    · rw [show (16 + 1932 * 1 + 8 : Nat) = 1948 + 8 from by norm_num,
          seg_shift, hD1]
      exact F1.2.2.1
    · rw [show (16 + 1932 * 1 + 12 : Nat) = 1948 + 12 from by norm_num,
          seg_shift, hD1]
      exact F1.2.2.2.1
    · rw [show (16 + 1932 * 1 + 972 : Nat) = 1948 + 972 from by norm_num,
          seg_shift, hD1]
      exact F1.2.2.2.2
  · refine ⟨?_, ?_, ?_, ?_, ?_⟩
    · rw [show (16 + 1932 * 2 : Nat) = 3880 + 0 from by norm_num, seg_shift, hD2]
      exact F2.1
    · rw [show (16 + 1932 * 2 + 4 : Nat) = 3880 + 4 from by norm_num,
          seg_shift, hD2]
      exact F2.2.1
    · rw [show (16 + 1932 * 2 + 8 : Nat) = 3880 + 8 from by norm_num,
          seg_shift, hD2]
      exact F2.2.2.1
    · rw [show (16 + 1932 * 2 + 12 : Nat) = 3880 + 12 from by norm_num,
          seg_shift, hD2]
      exact F2.2.2.2.1
    · rw [show (16 + 1932 * 2 + 972 : Nat) = 3880 + 972 from by norm_num,
          seg_shift, hD2]
      exact F2.2.2.2.2
  · refine ⟨?_, ?_, ?_, ?_, ?_⟩
    · rw [show (16 + 1932 * 3 : Nat) = 5812 + 0 from by norm_num, seg_shift, hD3]
      exact F3.1
    · rw [show (16 + 1932 * 3 + 4 : Nat) = 5812 + 4 from by norm_num,
          seg_shift, hD3]
      exact F3.2.1
    · rw [show (16 + 1932 * 3 + 8 : Nat) = 5812 + 8 from by norm_num,
          seg_shift, hD3]
      exact F3.2.2.1
    · rw [show (16 + 1932 * 3 + 12 : Nat) = 5812 + 12 from by norm_num,
          seg_shift, hD3]
      exact F3.2.2.2.1
    · rw [show (16 + 1932 * 3 + 972 : Nat) = 5812 + 972 from by norm_num,
          seg_shift, hD3]
      exact F3.2.2.2.2

set_option maxRecDepth 1000000 in
theorem C3_witness :
    (⟨⟨0xABCD1234, 1, 0, 0, 0, 7, 123⟩,
      List.replicate 4 ⟨5, 1065353216, 0, List.replicate 480 1000,
        List.replicate 480 (-5)⟩⟩ : BatchPacket).wf ∧
    (encPacket ⟨⟨0xABCD1234, 1, 0, 0, 0, 7, 123⟩,
      List.replicate 4 ⟨5, 1065353216, 0, List.replicate 480 1000,
        List.replicate 480 (-5)⟩⟩).length = 7744 ∧
    decPacket (encPacket ⟨⟨0xABCD1234, 1, 0, 0, 0, 7, 123⟩,
      List.replicate 4 ⟨5, 1065353216, 0, List.replicate 480 1000,
        List.replicate 480 (-5)⟩⟩)
      = some ⟨⟨0xABCD1234, 1, 0, 0, 0, 7, 123⟩,
          List.replicate 4 ⟨5, 1065353216, 0, List.replicate 480 1000,
            List.replicate 480 (-5)⟩⟩ :=
  ⟨by decide,
   (C3_thm _ (by decide)).1,
   (C3_thm _ (by decide)).2.2.2.2.2.2.2⟩
